import Mathlib

/-!
Verification development for the nature-food tracking backend's in-memory
data layer (`DataStore` in the backend sources).  Money amounts, prices and
quantities are embedded as rationals; JavaScript's `x || y` fallback on
numbers (which takes `y` whenever `x` is zero) is embedded as `jsOr`.
State is passed explicitly: each mutating operation takes the current list
of records and returns the result together with the new list.  Fresh ids
(uuids in the source) and current timestamps (`new Date()`) are inputs.
Timestamps are represented by their calendar year, the only component the
data layer ever inspects.
-/

namespace NatureFood

/-- The two goods categories, `type` in the source (`'berry' | 'mushroom'`). -/
inductive Category where
  | berry
  | mushroom
deriving DecidableEq

/-- JavaScript `x || y` on numbers: `y` when `x` is zero (falsy), else `x`. -/
def jsOr (x y : ℚ) : ℚ := if x = 0 then y else x

theorem jsOr_zero_right (x : ℚ) : jsOr x 0 = x := by
  unfold jsOr; split <;> simp_all

theorem jsOr_zero_left (y : ℚ) : jsOr 0 y = y := by
  simp [jsOr]

theorem jsOr_of_ne (x y : ℚ) (h : x ≠ 0) : jsOr x y = x := by
  simp [jsOr, h]

/-- A ledger record (`StockItem` in the source types). -/
structure StockItem where
  id : String
  userId : String
  type : Category
  species : String
  quantity : ℚ
  unitPrice : ℚ
  buyPrice : ℚ
  sellPrice : ℚ
  totalRevenue : ℚ
  totalCost : ℚ
  totalProfit : ℚ
  totalPrice : ℚ
  location : Option String
  collectedAt : Nat
  notes : Option String
deriving DecidableEq

/-- The caller-supplied part of a record:
`Omit<StockItem, 'id' | 'collectedAt' | 'totalPrice' | 'totalRevenue' | 'totalCost' | 'totalProfit'>`. -/
structure StockItemData where
  userId : String
  type : Category
  species : String
  quantity : ℚ
  unitPrice : ℚ
  buyPrice : ℚ
  sellPrice : ℚ
  location : Option String
  notes : Option String
deriving DecidableEq

/-- `DataStore.createStockItem`: computes the effective prices with the
legacy `unitPrice` fallback, derives the monetary fields, and pushes the
new record.  `freshId` stands for the generated uuid and `nowYear` for the
year of `new Date()`. -/
def createStockItem (items : List StockItem) (d : StockItemData)
    (freshId : String) (nowYear : Nat) : StockItem × List StockItem :=
  let buyPrice := jsOr d.buyPrice 0
  let sellPrice := jsOr d.sellPrice (jsOr d.unitPrice 0)
  let unitPrice := jsOr d.unitPrice sellPrice
  let totalRevenue := d.quantity * sellPrice / 1000
  let totalCost := d.quantity * buyPrice / 1000
  let totalProfit := totalRevenue - totalCost
  let totalPrice := totalRevenue
  let item : StockItem :=
    { id := freshId, userId := d.userId, type := d.type, species := d.species
      quantity := d.quantity, unitPrice := unitPrice, buyPrice := buyPrice
      sellPrice := sellPrice, totalRevenue := totalRevenue, totalCost := totalCost
      totalProfit := totalProfit, totalPrice := totalPrice
      location := d.location, collectedAt := nowYear, notes := d.notes }
  (item, items ++ [item])

/-- A partial update:
`Partial<Omit<StockItem, 'id' | 'userId' | 'collectedAt' | 'totalPrice' | 'totalRevenue' | 'totalCost' | 'totalProfit'>>`.
`none` means the key is absent from the update object. -/
structure StockItemUpdate where
  type : Option Category := none
  species : Option String := none
  quantity : Option ℚ := none
  unitPrice : Option ℚ := none
  buyPrice : Option ℚ := none
  sellPrice : Option ℚ := none
  location : Option (Option String) := none
  notes : Option String := none
deriving DecidableEq

/-- The spread `{ ...item, ...updates }`. -/
def applyUpdates (it : StockItem) (u : StockItemUpdate) : StockItem :=
  { it with
    type := u.type.getD it.type
    species := u.species.getD it.species
    quantity := u.quantity.getD it.quantity
    unitPrice := u.unitPrice.getD it.unitPrice
    buyPrice := u.buyPrice.getD it.buyPrice
    sellPrice := u.sellPrice.getD it.sellPrice
    location := u.location.getD it.location
    notes := (u.notes.map some).getD it.notes }

/-- `'quantity' in updates || 'unitPrice' in updates || 'buyPrice' in updates || 'sellPrice' in updates`. -/
def touchesPrice (u : StockItemUpdate) : Bool :=
  u.quantity.isSome || u.unitPrice.isSome || u.buyPrice.isSome || u.sellPrice.isSome

/-- The recomputation block of `DataStore.updateStockItem`: recomputes the
derived fields from the merged record and re-syncs `unitPrice` to the
effective sell price.  The record's own `sellPrice` field is left as merged. -/
def recomputeItem (m : StockItem) : StockItem :=
  let buyPrice := jsOr m.buyPrice 0
  let sellPrice := jsOr m.sellPrice (jsOr m.unitPrice 0)
  let totalRevenue := m.quantity * sellPrice / 1000
  let totalCost := m.quantity * buyPrice / 1000
  { m with
    totalRevenue := totalRevenue
    totalCost := totalCost
    totalProfit := totalRevenue - totalCost
    totalPrice := totalRevenue
    unitPrice := sellPrice }

/-- `DataStore.updateStockItem`: finds the first record with the given id,
merges the update into it, recomputes the derived fields when a
price-relevant key is present, and stores it back.  Returns `none` and the
unchanged list when no record has the id. -/
def updateStockItem : List StockItem → String → StockItemUpdate →
    Option StockItem × List StockItem
  | [], _, _ => (none, [])
  | it :: rest, i, u =>
    if it.id = i then
      let merged := applyUpdates it u
      let updated := if touchesPrice u then recomputeItem merged else merged
      (some updated, updated :: rest)
    else
      let p := updateStockItem rest i u
      (p.1, it :: p.2)

/-- `DataStore.deleteStockItem`: splices out the first record with the id,
returning whether one existed. -/
def deleteStockItem : List StockItem → String → Bool × List StockItem
  | [], _ => (false, [])
  | it :: rest, i =>
    if it.id = i then (true, rest)
    else
      let p := deleteStockItem rest i
      (p.1, it :: p.2)

/-- A user account. -/
structure User where
  id : String
  aliasName : String
  createdAt : Nat
  revenue : ℚ
  profit : ℚ
deriving DecidableEq

/-- The revenue fold of `getUserById` / `getAllUsers`:
`reduce((total, item) => total + (item.totalRevenue || item.totalPrice || 0), 0)`
over the user's records. -/
def userRevenue (items : List StockItem) (userId : String) : ℚ :=
  (items.filter fun it => decide (it.userId = userId)).foldl
    (fun total it => total + jsOr it.totalRevenue (jsOr it.totalPrice 0)) 0

/-- The profit fold of `getUserById` / `getAllUsers`:
`reduce((total, item) => total + (item.totalProfit || (item.totalRevenue || item.totalPrice || 0)), 0)`. -/
def userProfit (items : List StockItem) (userId : String) : ℚ :=
  (items.filter fun it => decide (it.userId = userId)).foldl
    (fun total it =>
      total + jsOr it.totalProfit (jsOr it.totalRevenue (jsOr it.totalPrice 0))) 0

/-- `DataStore.getUserById`: looks the user up and recomputes revenue and
profit from all of that user's ledger records. -/
def getUserById (users : List User) (items : List StockItem) (userId : String) :
    Option User :=
  match users.find? (fun u => decide (u.id = userId)) with
  | none => none
  | some u => some { u with revenue := userRevenue items userId
                            profit := userProfit items userId }

/-- `DataStore.getAllUsers`: every user with recomputed totals. -/
def getAllUsers (users : List User) (items : List StockItem) : List User :=
  users.map fun u => { u with revenue := userRevenue items u.id
                              profit := userProfit items u.id }

/-!
Generic embedding of the `Record<key, entry>` / `Map` grouping pattern the
source uses in `getUserProfitByYear`, `getPriceProfitAnalysis` and
`getAvailableInventory`: iterate a list, and for each element either
initialise a fresh entry for its key or accumulate into the existing one.
Entries carry their own key, read back by `keyB`.
-/

section Grouping

variable {α β κ : Type} [DecidableEq κ]

/-- First entry whose key is `k` (the `map.get(key)` / `yearlyData[year]` read). -/
def lookupG (keyB : β → κ) (k : κ) : List β → Option β
  | [] => none
  | b :: m => if keyB b = k then some b else lookupG keyB k m

/-- Replace the first entry whose key is `k` by its image under `f`
(the in-place mutation of the found entry). -/
def updG (keyB : β → κ) (k : κ) (f : β → β) : List β → List β
  | [] => []
  | b :: m => if keyB b = k then f b :: m else b :: updG keyB k f m

/-- One iteration of the grouping loop: initialise-if-absent, then accumulate. -/
def stepG (key : α → κ) (keyB : β → κ) (init : α → β) (add : β → α → β)
    (m : List β) (a : α) : List β :=
  match lookupG keyB (key a) m with
  | none => m ++ [add (init a) a]
  | some _ => updG keyB (key a) (fun b => add b a) m

/-- The whole grouping loop over `l`, starting from the empty map. -/
def groupG (key : α → κ) (keyB : β → κ) (init : α → β) (add : β → α → β)
    (l : List α) : List β :=
  l.foldl (stepG key keyB init add) []

theorem lookupG_append (keyB : β → κ) (k : κ) (b : β) :
    ∀ m : List β, lookupG keyB k (m ++ [b]) =
      match lookupG keyB k m with
      | some e => some e
      | none => if keyB b = k then some b else none
  | [] => by simp [lookupG]
  | c :: m => by
    by_cases h : keyB c = k <;> simp [lookupG, h, lookupG_append keyB k b m]

theorem lookupG_updG (keyB : β → κ) (k k' : κ) (f : β → β)
    (Hf : ∀ b, keyB (f b) = keyB b) :
    ∀ m : List β, lookupG keyB k (updG keyB k' f m) =
      if k' = k then Option.map f (lookupG keyB k m) else lookupG keyB k m
  | [] => by simp [lookupG, updG]
  | c :: m => by
    have ih := lookupG_updG keyB k k' f Hf m
    by_cases hc : keyB c = k'
    · by_cases hk : k' = k
      · subst hk
        simp [lookupG, updG, hc, Hf]
      · have hck : keyB c ≠ k := by rw [hc]; exact hk
        simp [lookupG, updG, hc, hck, hk, Hf, ih]
    · by_cases hk : k' = k
      · subst hk
        simp [lookupG, updG, hc, ih]
      · by_cases hck : keyB c = k
        · simp [lookupG, updG, hc, hck, hk, Ne.symm hk]
        · simp [lookupG, updG, hc, hck, hk, ih]

theorem lookupG_foldl (key : α → κ) (keyB : β → κ) (init : α → β)
    (add : β → α → β) (Hinit : ∀ a, keyB (init a) = key a)
    (Hadd : ∀ b a, keyB (add b a) = keyB b) (k : κ) :
    ∀ (l : List α) (m : List β),
      lookupG keyB k (l.foldl (stepG key keyB init add) m) =
        match lookupG keyB k m, l.filter (fun a => decide (key a = k)) with
        | some e, fl => some (fl.foldl add e)
        | none, [] => none
        | none, a0 :: rest => some ((a0 :: rest).foldl add (init a0))
  | [], m => by
    cases h : lookupG keyB k m <;> simp [h]
  | a :: l, m => by
    rw [List.foldl_cons, lookupG_foldl key keyB init add Hinit Hadd k l]
    by_cases hak : key a = k
    · subst hak
      have hfa : List.filter (fun x => decide (key x = key a)) (a :: l) =
          a :: List.filter (fun x => decide (key x = key a)) l := by
        simp [List.filter_cons]
      rw [hfa]
      cases hma : lookupG keyB (key a) m with
      | none =>
        have h1 : lookupG keyB (key a)
            (stepG key keyB init add m a) = some (add (init a) a) := by
          simp only [stepG, hma]
          rw [lookupG_append, hma]
          simp [Hadd, Hinit]
        rw [h1]
        simp [List.foldl_cons]
      | some e =>
        have h1 : lookupG keyB (key a)
            (stepG key keyB init add m a) = some (add e a) := by
          simp only [stepG, hma]
          rw [lookupG_updG keyB (key a) (key a) _ (fun b => Hadd b a), if_pos rfl, hma]
          rfl
        rw [h1]
        simp [List.foldl_cons]
    · have hfa : List.filter (fun x => decide (key x = k)) (a :: l) =
          List.filter (fun x => decide (key x = k)) l := by
        simp [List.filter_cons, hak]
      rw [hfa]
      have h1 : lookupG keyB k (stepG key keyB init add m a) = lookupG keyB k m := by
        cases hma : lookupG keyB (key a) m with
        | none =>
          simp only [stepG, hma]
          rw [lookupG_append]
          have hne : keyB (add (init a) a) ≠ k := by rw [Hadd, Hinit]; exact hak
          cases h : lookupG keyB k m <;> simp [h, hne]
        | some e =>
          simp only [stepG, hma]
          rw [lookupG_updG keyB k (key a) _ (fun b => Hadd b a), if_neg hak]
      rw [h1]

theorem map_keyB_updG (keyB : β → κ) (k : κ) (f : β → β)
    (Hf : ∀ b, keyB (f b) = keyB b) :
    ∀ m : List β, (updG keyB k f m).map keyB = m.map keyB
  | [] => rfl
  | c :: m => by
    by_cases h : keyB c = k <;>
      simp [updG, h, Hf, map_keyB_updG keyB k f Hf m]

theorem lookupG_eq_none (keyB : β → κ) (k : κ) :
    ∀ m : List β, lookupG keyB k m = none ↔ k ∉ m.map keyB
  | [] => by simp [lookupG]
  | c :: m => by
    by_cases h : keyB c = k
    · simp [lookupG, h, eq_comm]
    · have h2 : ¬k = keyB c := fun hh => h hh.symm
      simp [lookupG, h, h2, lookupG_eq_none keyB k m]

theorem nodup_keys_foldl (key : α → κ) (keyB : β → κ) (init : α → β)
    (add : β → α → β) (Hinit : ∀ a, keyB (init a) = key a)
    (Hadd : ∀ b a, keyB (add b a) = keyB b) :
    ∀ (l : List α) (m : List β), (m.map keyB).Nodup →
      ((l.foldl (stepG key keyB init add) m).map keyB).Nodup
  | [], _, h => h
  | a :: l, m, h => by
    rw [List.foldl_cons]
    apply nodup_keys_foldl key keyB init add Hinit Hadd l
    unfold stepG
    cases hma : lookupG keyB (key a) m with
    | none =>
      rw [(lookupG_eq_none keyB (key a) m)] at hma
      simp only [List.map_append, List.map_cons, List.map_nil]
      rw [List.nodup_append]
      refine ⟨h, List.nodup_singleton _, ?_⟩
      intro x hx hx'
      simp only [List.mem_singleton] at hx'
      rw [Hadd, Hinit] at hx'
      exact hma (hx' ▸ hx)
    | some e =>
      rw [map_keyB_updG keyB (key a) _ (fun b => Hadd b a)]
      exact h

theorem lookupG_mem (keyB : β → κ) (k : κ) :
    ∀ (m : List β) (b : β), lookupG keyB k m = some b → b ∈ m ∧ keyB b = k
  | [], b => by simp [lookupG]
  | c :: m, b => by
    by_cases h : keyB c = k
    · intro hb
      simp [lookupG, h] at hb
      subst hb
      exact ⟨List.mem_cons_self _ _, h⟩
    · intro hb
      simp only [lookupG, h, if_false] at hb
      obtain ⟨h1, h2⟩ := lookupG_mem keyB k m b hb
      exact ⟨List.mem_cons_of_mem _ h1, h2⟩

theorem lookupG_of_mem (keyB : β → κ) :
    ∀ m : List β, (m.map keyB).Nodup → ∀ b ∈ m, lookupG keyB (keyB b) m = some b
  | [], _, b => by simp
  | c :: m, h, b => by
    intro hb
    rcases List.mem_cons.1 hb with rfl | hbm
    · simp [lookupG]
    · by_cases hc : keyB c = keyB b
      · exfalso
        simp only [List.map_cons, List.nodup_cons] at h
        exact h.1 (hc ▸ List.mem_map_of_mem keyB hbm)
      · simp only [List.map_cons, List.nodup_cons] at h
        simp only [lookupG, hc, if_false]
        exact lookupG_of_mem keyB m h.2 b hbm

end Grouping

/-- One bucket of a `Record<number, { revenue; cost; profit; itemCount }>`
yearly aggregate, together with its key. -/
structure YearEntry where
  year : Nat
  revenue : ℚ
  cost : ℚ
  profit : ℚ
  itemCount : Nat
deriving DecidableEq

/-- The per-item accumulation of `DataStore.getUserProfitByYear`.  The
source guards `item.totalProfit !== undefined`; the typed store always
sets `totalProfit`, so the guard always takes the stored value. -/
def profitAdd (e : YearEntry) (it : StockItem) : YearEntry :=
  let revenue := jsOr it.totalRevenue (jsOr it.totalPrice 0)
  let cost := jsOr it.totalCost 0
  let profit := it.totalProfit
  { e with revenue := e.revenue + revenue, cost := e.cost + cost
           profit := e.profit + profit, itemCount := e.itemCount + 1 }

/-- `DataStore.getUserProfitByYear`: keeps only the user's records with
`sellPrice > 0 && buyPrice > 0`, optionally restricts to one category, and
groups the rest by the year of `collectedAt`. -/
def getUserProfitByYear (items : List StockItem) (userId : String)
    (typeFilter : Option Category) : List YearEntry :=
  let userItems := items.filter fun it => decide (it.userId = userId)
  let salesItems := userItems.filter fun it =>
    decide (0 < it.sellPrice ∧ 0 < it.buyPrice)
  let filtered := match typeFilter with
    | some t => salesItems.filter fun it => decide (it.type = t)
    | none => salesItems
  groupG (fun it => it.collectedAt) (fun e => e.year)
    (fun it => ⟨it.collectedAt, 0, 0, 0, 0⟩) profitAdd filtered

/-- A price reference entry (`Price` in the source types). -/
structure Price where
  id : String
  type : Category
  species : String
  year : Nat
  buyPrice : ℚ
  sellPrice : ℚ
  updatedAt : Nat
deriving DecidableEq

/-- `Omit<Price, 'id' | 'updatedAt'>`, the payload of `createPrice`. -/
structure PriceData where
  type : Category
  species : String
  year : Nat
  buyPrice : ℚ
  sellPrice : ℚ
deriving DecidableEq

/-- The natural key of a price entry. -/
def tripleOf (p : Price) : Category × String × Nat := (p.type, p.species, p.year)

/-- `DataStore.createPrice` (upsert): finds the first entry with the same
(type, species, year) triple and overwrites it in place via
`{ ...prices[i], ...priceData, updatedAt: new Date() }` (preserving its id);
otherwise pushes a fresh entry. -/
def createPrice (prices : List Price) (d : PriceData) (freshId : String)
    (now : Nat) : Price × List Price :=
  match prices with
  | [] =>
    let p : Price := ⟨freshId, d.type, d.species, d.year, d.buyPrice, d.sellPrice, now⟩
    (p, [p])
  | p :: rest =>
    if p.type = d.type ∧ p.species = d.species ∧ p.year = d.year then
      let p' : Price := { p with type := d.type, species := d.species, year := d.year
                                 buyPrice := d.buyPrice, sellPrice := d.sellPrice
                                 updatedAt := now }
      (p', p' :: rest)
    else
      let q := createPrice rest d freshId now
      (q.1, p :: q.2)

/-- `Partial<Omit<Price, 'id' | 'type' | 'species' | 'year'>>`. -/
structure PriceUpdate where
  buyPrice : Option ℚ := none
  sellPrice : Option ℚ := none
deriving DecidableEq

/-- `DataStore.updatePrice`: merges the partial update into the first entry
with the id and refreshes its timestamp. -/
def updatePrice (prices : List Price) (i : String) (u : PriceUpdate)
    (now : Nat) : Option Price × List Price :=
  match prices with
  | [] => (none, [])
  | p :: rest =>
    if p.id = i then
      let p' : Price := { p with buyPrice := u.buyPrice.getD p.buyPrice
                                 sellPrice := u.sellPrice.getD p.sellPrice
                                 updatedAt := now }
      (some p', p' :: rest)
    else
      let q := updatePrice rest i u now
      (q.1, p :: q.2)

/-- `DataStore.deletePrice`: splices out the first entry with the id. -/
def deletePrice (prices : List Price) (i : String) : Bool × List Price :=
  match prices with
  | [] => (false, [])
  | p :: rest =>
    if p.id = i then (true, rest)
    else
      let q := deletePrice rest i
      (q.1, p :: q.2)

/-- One step of the sequence of mutating Price Reference Table operations.
Generated ids and timestamps are carried as inputs. -/
inductive PriceOp where
  | upsert (d : PriceData) (freshId : String) (now : Nat)
  | update (i : String) (u : PriceUpdate) (now : Nat)
  | del (i : String)

/-- Apply one operation to the price table state. -/
def applyPriceOp (prices : List Price) : PriceOp → List Price
  | .upsert d freshId now => (createPrice prices d freshId now).2
  | .update i u now => (updatePrice prices i u now).2
  | .del i => (deletePrice prices i).2

/-- The price table reached from the empty store by a sequence of operations. -/
def runPriceOps (ops : List PriceOp) : List Price :=
  ops.foldl applyPriceOp []

/-- Insertion into a year-descending list, auxiliary to `sortYearDesc`. -/
def insertYearDesc (p : Price) : List Price → List Price
  | [] => [p]
  | q :: rest => if q.year ≤ p.year then p :: q :: rest else q :: insertYearDesc p rest

/-- The `.sort((a, b) => b.year - a.year)` step of `getCurrentPrice`:
a sort by year, descending. -/
def sortYearDesc (l : List Price) : List Price :=
  l.foldr insertYearDesc []

/-- `DataStore.getCurrentPrice`: the entry of the current year for the
(type, species) pair when one exists, else the head of the matches sorted
by year descending (`undefined`, i.e. `none`, when there are no matches).
`currentYear` stands for `new Date().getFullYear()`. -/
def getCurrentPrice (prices : List Price) (currentYear : Nat) (t : Category)
    (species : String) : Option Price :=
  match prices.find? (fun p =>
      decide (p.type = t ∧ p.species = species ∧ p.year = currentYear)) with
  | some p => some p
  | none =>
    let pricesForSpecies := sortYearDesc
      (prices.filter fun p => decide (p.type = t ∧ p.species = species))
    pricesForSpecies.head?

/-- The whole in-memory store. -/
structure DataStore where
  users : List User
  stockItems : List StockItem
  prices : List Price
deriving DecidableEq

/-- The per-entry accumulation of `DataStore.getPriceProfitAnalysis`:
each price entry is one market observation. -/
def priceAdd (e : YearEntry) (p : Price) : YearEntry :=
  { e with revenue := e.revenue + p.sellPrice, cost := e.cost + p.buyPrice
           profit := e.profit + (p.sellPrice - p.buyPrice)
           itemCount := e.itemCount + 1 }

/-- The optional category restriction of `getPriceProfitAnalysis`. -/
def typeFilteredPrices (prices : List Price) (typeFilter : Option Category) :
    List Price :=
  match typeFilter with
  | some t => prices.filter fun p => decide (p.type = t)
  | none => prices

/-- `DataStore.getPriceProfitAnalysis`: iterates the price table (never the
ledger), optionally restricted to one category, grouping by the entry's year. -/
def getPriceProfitAnalysis (s : DataStore) (typeFilter : Option Category) :
    List YearEntry :=
  groupG (fun p => p.year) (fun e : YearEntry => e.year)
    (fun p => ⟨p.year, 0, 0, 0, 0⟩) priceAdd (typeFilteredPrices s.prices typeFilter)

/-- One value of the inventory grouping map of `getAvailableInventory`. -/
structure InvAcc where
  type : Category
  species : String
  totalPurchased : ℚ
  totalSold : ℚ
deriving DecidableEq

/-- One element of the result of `getAvailableInventory`. -/
structure InvEntry where
  type : Category
  species : String
  availableQuantity : ℚ
  totalPurchased : ℚ
  totalSold : ℚ
deriving DecidableEq

/-- The per-record accumulation of `getAvailableInventory`: a record with
`buyPrice > 0 && sellPrice === 0` is a purchase; otherwise one with
`sellPrice > 0` is a sale (regardless of buyPrice). -/
def invAdd (b : InvAcc) (it : StockItem) : InvAcc :=
  if 0 < it.buyPrice ∧ it.sellPrice = 0 then
    { b with totalPurchased := b.totalPurchased + it.quantity }
  else if 0 < it.sellPrice then
    { b with totalSold := b.totalSold + it.quantity }
  else b

/-- The filter chain of `getAvailableInventory` (user, then the optional
type and species filters). -/
def relevantStockItems (items : List StockItem) (userId : String)
    (typeFilter : Option Category) (speciesFilter : Option String) :
    List StockItem :=
  let userItems := items.filter fun it => decide (it.userId = userId)
  let f1 := match typeFilter with
    | some t => userItems.filter fun it => decide (it.type = t)
    | none => userItems
  match speciesFilter with
  | some sp => f1.filter fun it => decide (it.species = sp)
  | none => f1

/-- `DataStore.getAvailableInventory`: groups the relevant records by
(type, species), nets purchased against sold quantities, and reports
`availableQuantity = totalPurchased - totalSold` without clamping. -/
def getAvailableInventory (items : List StockItem) (userId : String)
    (typeFilter : Option Category) (speciesFilter : Option String) :
    List InvEntry :=
  let grouped := groupG (fun it => (it.type, it.species))
    (fun b => (b.type, b.species))
    (fun it => ⟨it.type, it.species, 0, 0⟩) invAdd
    (relevantStockItems items userId typeFilter speciesFilter)
  grouped.map fun b =>
    ⟨b.type, b.species, b.totalPurchased - b.totalSold, b.totalPurchased, b.totalSold⟩

/-- The flagging predicate of `DataStore.validateDataIntegrity`: a record is
pushed when it has a sell price but no buy price, or when it has both
prices and a stored derived field deviates from the recomputation by more
than 0.01. -/
def integrityBad (it : StockItem) : Prop :=
  (0 < it.sellPrice ∧ it.buyPrice = 0) ∨
  (0 < it.sellPrice ∧ 0 < it.buyPrice ∧
    (|it.totalRevenue - it.quantity * it.sellPrice / 1000| > 1 / 100 ∨
     |it.totalCost - it.quantity * it.buyPrice / 1000| > 1 / 100 ∨
     |it.totalProfit - (it.quantity * it.sellPrice / 1000 -
        it.quantity * it.buyPrice / 1000)| > 1 / 100))

instance (it : StockItem) : Decidable (integrityBad it) := by
  unfold integrityBad; infer_instance

/-- One loop iteration of `validateDataIntegrity`: two sequential checks,
each pushing the item and one warning message. -/
def auditStep (acc : List StockItem × List String) (it : StockItem) :
    List StockItem × List String :=
  let acc1 := if 0 < it.sellPrice ∧ it.buyPrice = 0 then
      (acc.1 ++ [it], acc.2 ++ ["Item " ++ it.id ++
        ": Has sellPrice but no buyPrice. This might appear in sales when it should not."])
    else acc
  if 0 < it.sellPrice ∧ 0 < it.buyPrice ∧
      (|it.totalRevenue - it.quantity * it.sellPrice / 1000| > 1 / 100 ∨
       |it.totalCost - it.quantity * it.buyPrice / 1000| > 1 / 100 ∨
       |it.totalProfit - (it.quantity * it.sellPrice / 1000 -
          it.quantity * it.buyPrice / 1000)| > 1 / 100) then
    (acc1.1 ++ [it], acc1.2 ++ ["Item " ++ it.id ++
      ": Calculated values do not match stored values."])
  else acc1

/-- `DataStore.validateDataIntegrity`: a read-only scan of the ledger,
returning the inconsistent records and the warning messages.  The items
list itself is not part of the result: the operation has no state output. -/
def validateDataIntegrity (items : List StockItem) :
    List StockItem × List String :=
  items.foldl auditStep ([], [])

/-!  Theorems. -/

/-- Claim C1 (amended): for every create with quantity q > 0, buyPrice
b ≥ 0, sellPrice s ≥ 0 where additionally s > 0 or the legacy `unitPrice`
field is zero, the returned and stored record has
totalRevenue = q·s/1000, totalCost = q·b/1000 and
totalProfit = totalRevenue − totalCost, and the record is appended to the
ledger. -/
theorem createStockItem_formulas (items : List StockItem) (d : StockItemData)
    (freshId : String) (nowYear : Nat)
    (hq : 0 < d.quantity) (hb : 0 ≤ d.buyPrice) (hs : 0 ≤ d.sellPrice)
    (hu : 0 < d.sellPrice ∨ d.unitPrice = 0) :
    (createStockItem items d freshId nowYear).1.totalRevenue
        = d.quantity * d.sellPrice / 1000 ∧
    (createStockItem items d freshId nowYear).1.totalCost
        = d.quantity * d.buyPrice / 1000 ∧
    (createStockItem items d freshId nowYear).1.totalProfit
        = (createStockItem items d freshId nowYear).1.totalRevenue
          - (createStockItem items d freshId nowYear).1.totalCost ∧
    (createStockItem items d freshId nowYear).2
        = items ++ [(createStockItem items d freshId nowYear).1] := by
  have hbe : jsOr d.buyPrice 0 = d.buyPrice := jsOr_zero_right _
  have hse : jsOr d.sellPrice (jsOr d.unitPrice 0) = d.sellPrice := by
    rcases hu with h | h
    · exact jsOr_of_ne _ _ (ne_of_gt h)
    · rw [h, jsOr_zero_left, jsOr_zero_right]
  simp [createStockItem, hbe, hse]

/-- Witness for C1's theorem at a concrete input. -/
theorem createStockItem_formulas_witness :
    (createStockItem [] ⟨"u1", Category.berry, "blueberry", 500, 0, 3, 6, none, none⟩
        "i1" 2024).1.totalRevenue = 500 * 6 / 1000 ∧
    (createStockItem [] ⟨"u1", Category.berry, "blueberry", 500, 0, 3, 6, none, none⟩
        "i1" 2024).1.totalCost = 500 * 3 / 1000 ∧
    (createStockItem [] ⟨"u1", Category.berry, "blueberry", 500, 0, 3, 6, none, none⟩
        "i1" 2024).1.totalProfit =
      (createStockItem [] ⟨"u1", Category.berry, "blueberry", 500, 0, 3, 6, none, none⟩
        "i1" 2024).1.totalRevenue -
      (createStockItem [] ⟨"u1", Category.berry, "blueberry", 500, 0, 3, 6, none, none⟩
        "i1" 2024).1.totalCost ∧
    (createStockItem [] ⟨"u1", Category.berry, "blueberry", 500, 0, 3, 6, none, none⟩
        "i1" 2024).2 =
      [] ++ [(createStockItem [] ⟨"u1", Category.berry, "blueberry", 500, 0, 3, 6, none, none⟩
        "i1" 2024).1] :=
  createStockItem_formulas [] ⟨"u1", Category.berry, "blueberry", 500, 0, 3, 6, none, none⟩
    "i1" 2024 (by norm_num) (by norm_num) (by norm_num) (Or.inl (by norm_num))

/-- Counterexample to Claim C1 as stated: a create with quantity 1000 > 0,
buyPrice 0 ≥ 0 and sellPrice 0 ≥ 0 but legacy unitPrice 7 stores
totalRevenue 7, not quantity·sellPrice/1000 = 0. -/
theorem createStockItem_unitPrice_breaks_formula :
    0 < (⟨"u1", Category.berry, "x", 1000, 7, 0, 0, none, none⟩ : StockItemData).quantity ∧
    0 ≤ (⟨"u1", Category.berry, "x", 1000, 7, 0, 0, none, none⟩ : StockItemData).buyPrice ∧
    0 ≤ (⟨"u1", Category.berry, "x", 1000, 7, 0, 0, none, none⟩ : StockItemData).sellPrice ∧
    (createStockItem [] ⟨"u1", Category.berry, "x", 1000, 7, 0, 0, none, none⟩
        "i1" 2024).1.totalRevenue ≠
      (⟨"u1", Category.berry, "x", 1000, 7, 0, 0, none, none⟩ : StockItemData).quantity *
        (⟨"u1", Category.berry, "x", 1000, 7, 0, 0, none, none⟩ : StockItemData).sellPrice
        / 1000 := by
  refine ⟨by norm_num, by norm_num, by norm_num, ?_⟩
  simp [createStockItem, jsOr]

/-- Claim C10: a create whose supplied sellPrice is zero (or absent, which
the store's `||` treats the same) but whose legacy unitPrice is positive
stores sellPrice = unitPrice and totalRevenue = quantity·unitPrice/1000
(nonzero for positive quantity); every created record stores
totalPrice = totalRevenue; such a record is classified as a sale
(sellPrice > 0), not as a purchase. -/
theorem createStockItem_legacy_unitPrice :
    (∀ (items : List StockItem) (d : StockItemData) (freshId : String) (nowYear : Nat),
      d.sellPrice = 0 → 0 < d.unitPrice →
      (createStockItem items d freshId nowYear).1.sellPrice = d.unitPrice ∧
      (createStockItem items d freshId nowYear).1.totalRevenue
          = d.quantity * d.unitPrice / 1000 ∧
      (0 < d.quantity → (createStockItem items d freshId nowYear).1.totalRevenue ≠ 0) ∧
      0 < (createStockItem items d freshId nowYear).1.sellPrice ∧
      ¬(0 < (createStockItem items d freshId nowYear).1.buyPrice ∧
        (createStockItem items d freshId nowYear).1.sellPrice = 0)) ∧
    (∀ (items : List StockItem) (d : StockItemData) (freshId : String) (nowYear : Nat),
      (createStockItem items d freshId nowYear).1.totalPrice
        = (createStockItem items d freshId nowYear).1.totalRevenue) := by
  constructor
  · intro items d freshId nowYear hs hu
    have hse : jsOr d.sellPrice (jsOr d.unitPrice 0) = d.unitPrice := by
      rw [hs, jsOr_zero_left, jsOr_zero_right]
    refine ⟨by simp [createStockItem, hse], by simp [createStockItem, hse], ?_, ?_, ?_⟩
    · intro hq
      simp only [createStockItem, hse]
      have : 0 < d.quantity * d.unitPrice / 1000 := by positivity
      exact ne_of_gt this
    · simp [createStockItem, hse, hu]
    · rintro ⟨-, h⟩
      simp only [createStockItem, hse] at h
      exact (ne_of_gt hu) h
  · intro items d freshId nowYear
    simp [createStockItem]

/-- Witness for C10's theorem at a concrete input. -/
theorem createStockItem_legacy_unitPrice_witness :
    (createStockItem [] ⟨"u1", Category.berry, "x", 1000, 7, 0, 0, none, none⟩
        "i1" 2024).1.sellPrice = 7 ∧
    (createStockItem [] ⟨"u1", Category.berry, "x", 1000, 7, 0, 0, none, none⟩
        "i1" 2024).1.totalRevenue ≠ 0 ∧
    (createStockItem [] ⟨"u1", Category.berry, "x", 1000, 7, 0, 0, none, none⟩
        "i1" 2024).1.totalPrice =
      (createStockItem [] ⟨"u1", Category.berry, "x", 1000, 7, 0, 0, none, none⟩
        "i1" 2024).1.totalRevenue := by
  have h := createStockItem_legacy_unitPrice
  have h1 := h.1 [] ⟨"u1", Category.berry, "x", 1000, 7, 0, 0, none, none⟩ "i1" 2024
    (by norm_num) (by norm_num)
  exact ⟨h1.1, h1.2.2.1 (by norm_num), h.2 [] _ "i1" 2024⟩

/-- `updateStockItem` acts on the first record carrying the id. -/
theorem updateStockItem_append (i : String) (u : StockItemUpdate) :
    ∀ (l₁ : List StockItem) (old : StockItem) (l₂ : List StockItem),
      (∀ y ∈ l₁, y.id ≠ i) → old.id = i →
      updateStockItem (l₁ ++ old :: l₂) i u =
        (some (if touchesPrice u then recomputeItem (applyUpdates old u)
               else applyUpdates old u),
         l₁ ++ (if touchesPrice u then recomputeItem (applyUpdates old u)
                else applyUpdates old u) :: l₂)
  | [], old, l₂, _, h => by simp [updateStockItem, h]
  | y :: l₁, old, l₂, hn, h => by
    have hy : ¬(y.id = i) := hn y (List.mem_cons_self y l₁)
    have ih := updateStockItem_append i u l₁ old l₂
      (fun z hz => hn z (List.mem_cons_of_mem _ hz)) h
    simp [updateStockItem, hy, ih]

/-- An `updateStockItem` that finds no record changes nothing. -/
theorem updateStockItem_not_found (i : String) (u : StockItemUpdate) :
    ∀ items : List StockItem,
      (updateStockItem items i u).1 = none → (updateStockItem items i u).2 = items
  | [] => by simp [updateStockItem]
  | it :: rest => by
    by_cases h : it.id = i
    · simp [updateStockItem, h]
    · intro hnone
      simp only [updateStockItem, h, if_false] at hnone ⊢
      rw [updateStockItem_not_found i u rest hnone]

/-- Claim C2 (amended): when a partial update contains any of quantity,
buyPrice or sellPrice, the stored record's derived fields are recomputed
from the merged record, with the effective sell price being the merged
sellPrice unless that is zero, in which case the merged `unitPrice` is used
(the store's JavaScript `||` fallback); totalCost uses the merged buyPrice,
and totalProfit is their difference.  An update containing only `notes`
replaces only the notes field and leaves every other field, including the
three derived fields, unchanged. -/
theorem updateStockItem_recompute :
    (∀ (l₁ : List StockItem) (old : StockItem) (l₂ : List StockItem)
        (i : String) (u : StockItemUpdate),
      (∀ y ∈ l₁, y.id ≠ i) → old.id = i →
      (u.quantity.isSome ∨ u.buyPrice.isSome ∨ u.sellPrice.isSome) →
      updateStockItem (l₁ ++ old :: l₂) i u =
        (some (recomputeItem (applyUpdates old u)),
         l₁ ++ recomputeItem (applyUpdates old u) :: l₂) ∧
      (recomputeItem (applyUpdates old u)).totalRevenue =
        (applyUpdates old u).quantity *
          jsOr (applyUpdates old u).sellPrice (applyUpdates old u).unitPrice / 1000 ∧
      (recomputeItem (applyUpdates old u)).totalCost =
        (applyUpdates old u).quantity * (applyUpdates old u).buyPrice / 1000 ∧
      (recomputeItem (applyUpdates old u)).totalProfit =
        (recomputeItem (applyUpdates old u)).totalRevenue -
          (recomputeItem (applyUpdates old u)).totalCost) ∧
    (∀ (l₁ : List StockItem) (old : StockItem) (l₂ : List StockItem)
        (i : String) (n : String),
      (∀ y ∈ l₁, y.id ≠ i) → old.id = i →
      updateStockItem (l₁ ++ old :: l₂) i ({ notes := some n } : StockItemUpdate) =
        (some { old with notes := some n },
         l₁ ++ { old with notes := some n } :: l₂)) := by
  constructor
  · intro l₁ old l₂ i u hn h htouch
    have ht : touchesPrice u = true := by
      unfold touchesPrice
      rcases htouch with h1 | h1 | h1 <;> simp [h1]
    refine ⟨?_, ?_, ?_, ?_⟩
    · rw [updateStockItem_append i u l₁ old l₂ hn h, ht]
      simp
    · have : jsOr (applyUpdates old u).sellPrice
          (jsOr (applyUpdates old u).unitPrice 0) =
          jsOr (applyUpdates old u).sellPrice (applyUpdates old u).unitPrice := by
        rw [jsOr_zero_right]
      simp [recomputeItem, this]
    · simp [recomputeItem, jsOr_zero_right]
    · simp [recomputeItem]
  · intro l₁ old l₂ i n hn h
    have ht : touchesPrice ({ notes := some n } : StockItemUpdate) = false := by
      simp [touchesPrice]
    have happ : applyUpdates old ({ notes := some n } : StockItemUpdate) =
        { old with notes := some n } := by
      simp [applyUpdates]
    rw [updateStockItem_append i _ l₁ old l₂ hn h, ht]
    simp [happ]

/-- Witness for C2's theorem at a concrete input. -/
theorem updateStockItem_recompute_witness :
    updateStockItem [⟨"i1", "u1", Category.berry, "x", 1000, 5, 2, 5, 5, 2, 3, 5,
        none, 2024, none⟩] "i1" ({ quantity := some 2000 } : StockItemUpdate) =
      (some (recomputeItem (applyUpdates
          ⟨"i1", "u1", Category.berry, "x", 1000, 5, 2, 5, 5, 2, 3, 5, none, 2024, none⟩
          ({ quantity := some 2000 } : StockItemUpdate))),
       [recomputeItem (applyUpdates
          ⟨"i1", "u1", Category.berry, "x", 1000, 5, 2, 5, 5, 2, 3, 5, none, 2024, none⟩
          ({ quantity := some 2000 } : StockItemUpdate))]) ∧
    updateStockItem [⟨"i1", "u1", Category.berry, "x", 1000, 5, 2, 5, 5, 2, 3, 5,
        none, 2024, none⟩] "i1" ({ notes := some "n" } : StockItemUpdate) =
      (some { (⟨"i1", "u1", Category.berry, "x", 1000, 5, 2, 5, 5, 2, 3, 5,
          none, 2024, none⟩ : StockItem) with notes := some "n" },
       [{ (⟨"i1", "u1", Category.berry, "x", 1000, 5, 2, 5, 5, 2, 3, 5,
          none, 2024, none⟩ : StockItem) with notes := some "n" }]) := by
  constructor
  · have h := (updateStockItem_recompute.1 []
      ⟨"i1", "u1", Category.berry, "x", 1000, 5, 2, 5, 5, 2, 3, 5, none, 2024, none⟩
      [] "i1" ({ quantity := some 2000 } : StockItemUpdate)
      (by intro y hy; simp at hy) rfl (Or.inl rfl)).1
    simpa using h
  · have h := updateStockItem_recompute.2 []
      ⟨"i1", "u1", Category.berry, "x", 1000, 5, 2, 5, 5, 2, 3, 5, none, 2024, none⟩
      [] "i1" "n" (by intro y hy; simp at hy) rfl
    simpa using h

/-- Counterexample to Claim C2 as stated: starting from a record created
with sellPrice = unitPrice = 5, the update `{ sellPrice: 0 }` contains
sellPrice, the merged record has sellPrice 0 and quantity 1000, yet the
stored totalRevenue is 5 (recomputed from the unitPrice fallback), not
merged quantity · merged sellPrice / 1000 = 0. -/
theorem updateStockItem_sellPrice_zero_fallback :
    ((updateStockItem
        (createStockItem [] ⟨"u1", Category.berry, "x", 1000, 5, 0, 5, none, none⟩
          "i1" 2024).2
        "i1" ({ sellPrice := some 0 } : StockItemUpdate)).1.map
      (fun r => r.totalRevenue)) = some 5 ∧
    ((updateStockItem
        (createStockItem [] ⟨"u1", Category.berry, "x", 1000, 5, 0, 5, none, none⟩
          "i1" 2024).2
        "i1" ({ sellPrice := some 0 } : StockItemUpdate)).1.map
      (fun r => r.quantity * r.sellPrice / 1000)) = some 0 := by
  constructor
  · simp [updateStockItem, createStockItem, applyUpdates, touchesPrice,
      recomputeItem, jsOr]
  · simp [updateStockItem, createStockItem, applyUpdates, touchesPrice,
      recomputeItem, jsOr]

/-- `deleteStockItem` reports whether a record with the id existed. -/
theorem deleteStockItem_found (i : String) :
    ∀ items : List StockItem,
      (deleteStockItem items i).1 = true ↔ ∃ x ∈ items, x.id = i
  | [] => by simp [deleteStockItem]
  | it :: rest => by
    by_cases h : it.id = i <;>
      simp [deleteStockItem, h, deleteStockItem_found i rest]

/-- A failed `deleteStockItem` changes nothing. -/
theorem deleteStockItem_not_found (i : String) :
    ∀ items : List StockItem,
      (deleteStockItem items i).1 = false → (deleteStockItem items i).2 = items
  | [] => by simp [deleteStockItem]
  | it :: rest => by
    by_cases h : it.id = i
    · simp [deleteStockItem, h]
    · intro hf
      simp only [deleteStockItem, h, if_false] at hf ⊢
      rw [deleteStockItem_not_found i rest hf]

/-- `deleteStockItem` removes exactly the first record carrying the id. -/
theorem deleteStockItem_append (i : String) :
    ∀ (l₁ : List StockItem) (r : StockItem) (l₂ : List StockItem),
      (∀ y ∈ l₁, y.id ≠ i) → r.id = i →
      deleteStockItem (l₁ ++ r :: l₂) i = (true, l₁ ++ l₂)
  | [], r, l₂, _, h => by simp [deleteStockItem, h]
  | y :: l₁, r, l₂, hn, h => by
    have hy : ¬(y.id = i) := hn y (List.mem_cons_self y l₁)
    have ih := deleteStockItem_append i l₁ r l₂
      (fun z hz => hn z (List.mem_cons_of_mem _ hz)) h
    simp [deleteStockItem, hy, ih]

/-- Claim C9: delete returns true exactly when a record with the id
existed, in which case exactly that (first such) record is removed and all
others are unchanged; a delete returning false, and an update reporting
not-found, leave the ledger unchanged. -/
theorem delete_update_not_found_spec :
    (∀ (items : List StockItem) (i : String),
      ((deleteStockItem items i).1 = true ↔ ∃ x ∈ items, x.id = i)) ∧
    (∀ (l₁ : List StockItem) (r : StockItem) (l₂ : List StockItem) (i : String),
      (∀ y ∈ l₁, y.id ≠ i) → r.id = i →
      deleteStockItem (l₁ ++ r :: l₂) i = (true, l₁ ++ l₂)) ∧
    (∀ (items : List StockItem) (i : String),
      (deleteStockItem items i).1 = false → (deleteStockItem items i).2 = items) ∧
    (∀ (items : List StockItem) (i : String) (u : StockItemUpdate),
      (updateStockItem items i u).1 = none → (updateStockItem items i u).2 = items) :=
  ⟨fun items i => deleteStockItem_found i items,
   fun l₁ r l₂ i => deleteStockItem_append i l₁ r l₂,
   fun items i => deleteStockItem_not_found i items,
   fun items i u => updateStockItem_not_found i u items⟩

/-- Witness for C9's theorem at concrete inputs. -/
theorem delete_update_not_found_spec_witness :
    deleteStockItem [⟨"i1", "u1", Category.berry, "x", 1000, 5, 2, 5, 5, 2, 3, 5,
        none, 2024, none⟩] "i1" = (true, []) ∧
    (deleteStockItem [⟨"i1", "u1", Category.berry, "x", 1000, 5, 2, 5, 5, 2, 3, 5,
        none, 2024, none⟩] "zz").2 =
      [⟨"i1", "u1", Category.berry, "x", 1000, 5, 2, 5, 5, 2, 3, 5,
        none, 2024, none⟩] := by
  constructor
  · have h := delete_update_not_found_spec.2.1 []
      ⟨"i1", "u1", Category.berry, "x", 1000, 5, 2, 5, 5, 2, 3, 5, none, 2024, none⟩
      [] "i1" (by intro y hy; simp at hy) rfl
    simpa using h
  · exact delete_update_not_found_spec.2.2.1 _ "zz" (by simp [deleteStockItem])

/-- The audit loop appends exactly the records satisfying `integrityBad`,
with one warning per flagged record. -/
theorem auditStep_foldl :
    ∀ (l : List StockItem) (acc : List StockItem × List String),
      (l.foldl auditStep acc).1 =
        acc.1 ++ l.filter (fun it => decide (integrityBad it)) ∧
      (l.foldl auditStep acc).2.length =
        acc.2.length + (l.filter (fun it => decide (integrityBad it))).length
  | [], acc => by simp
  | a :: l, acc => by
    rw [List.foldl_cons]
    have ih := auditStep_foldl l (auditStep acc a)
    by_cases h1 : 0 < a.sellPrice ∧ a.buyPrice = 0
    · have h2 : ¬(0 < a.sellPrice ∧ 0 < a.buyPrice ∧
          (|a.totalRevenue - a.quantity * a.sellPrice / 1000| > 1 / 100 ∨
           |a.totalCost - a.quantity * a.buyPrice / 1000| > 1 / 100 ∨
           |a.totalProfit - (a.quantity * a.sellPrice / 1000 -
              a.quantity * a.buyPrice / 1000)| > 1 / 100)) := by
        rintro ⟨-, hb, -⟩
        rw [h1.2] at hb
        exact lt_irrefl 0 hb
      have hbad : integrityBad a := Or.inl h1
      have hstep : auditStep acc a = (acc.1 ++ [a], acc.2 ++ ["Item " ++ a.id ++
          ": Has sellPrice but no buyPrice. This might appear in sales when it should not."]) := by
        simp only [auditStep]
        rw [if_pos h1, if_neg h2]
      rw [hstep] at ih
      rw [hstep]
      simp only [List.filter_cons, hbad, decide_True, if_true]
      refine ⟨?_, ?_⟩
      · rw [ih.1]
        simp
      · rw [ih.2]
        simp
        omega
    · by_cases h2 : 0 < a.sellPrice ∧ 0 < a.buyPrice ∧
          (|a.totalRevenue - a.quantity * a.sellPrice / 1000| > 1 / 100 ∨
           |a.totalCost - a.quantity * a.buyPrice / 1000| > 1 / 100 ∨
           |a.totalProfit - (a.quantity * a.sellPrice / 1000 -
              a.quantity * a.buyPrice / 1000)| > 1 / 100)
      · have hbad : integrityBad a := Or.inr h2
        have hstep : auditStep acc a = (acc.1 ++ [a], acc.2 ++ ["Item " ++ a.id ++
            ": Calculated values do not match stored values."]) := by
          simp only [auditStep]
          rw [if_neg h1, if_pos h2]
        rw [hstep] at ih
        rw [hstep]
        simp only [List.filter_cons, hbad, decide_True, if_true]
        refine ⟨?_, ?_⟩
        · rw [ih.1]
          simp
        · rw [ih.2]
          simp
          omega
      · have hbad : ¬integrityBad a := by
          rintro (h | h)
          · exact h1 h
          · exact h2 h
        have hstep : auditStep acc a = acc := by
          simp only [auditStep]
          rw [if_neg h1, if_neg h2]
        rw [hstep] at ih
        rw [hstep]
        simpa [List.filter_cons, hbad] using ih

/-- Claim C8: the audit's inconsistent-records list is exactly the records
with a sell price but no buy price, together with the both-priced records
whose stored derived fields deviate from recomputation by more than 0.01;
one warning is emitted per flagged record.  The audit is a pure function of
the ledger returning only this report, so it never changes the ledger. -/
theorem validateDataIntegrity_flags (items : List StockItem) :
    (validateDataIntegrity items).1 =
      items.filter (fun it => decide (integrityBad it)) ∧
    (validateDataIntegrity items).2.length = (validateDataIntegrity items).1.length := by
  have h := auditStep_foldl items ([], [])
  unfold validateDataIntegrity
  refine ⟨by simpa using h.1, ?_⟩
  rw [h.2, (by simpa using h.1 : (items.foldl auditStep ([], [])).1 =
    items.filter (fun it => decide (integrityBad it)))]
  simp

/-- A `reduce`-style fold of additions equals the sum of the mapped list. -/
theorem foldl_add_eq_sum {α : Type} (f : α → ℚ) :
    ∀ (l : List α) (c : ℚ), l.foldl (fun t a => t + f a) c = c + (l.map f).sum
  | [], c => by simp
  | a :: l, c => by
    rw [List.foldl_cons, foldl_add_eq_sum f l (c + f a), List.map_cons, List.sum_cons]
    ring

/-- Claim C3 (amended): the Aggregation Engine's `getUserProfitByYear` sums
only records with sellPrice > 0 and buyPrice > 0, so appending a record
with buyPrice = 0 (whatever its sellPrice) leaves its output unchanged;
the Identity Registry's `getUserById` and `getAllUsers` instead fold all of
the user's records with no purchase/sale filtering, computing revenue as
the sum of per-record `totalRevenue || totalPrice || 0` and profit as the
sum of per-record `totalProfit || totalRevenue || totalPrice || 0` — i.e.
with the JavaScript falsy fallback, which also replaces a present-but-zero
totalProfit (or totalRevenue) by the next field, not only an absent one. -/
theorem registry_vs_aggregation :
    (∀ (items : List StockItem) (userId : String) (tf : Option Category)
        (x : StockItem), x.buyPrice = 0 →
      getUserProfitByYear (items ++ [x]) userId tf
        = getUserProfitByYear items userId tf) ∧
    (∀ (users : List User) (items : List StockItem) (userId : String) (u : User),
      getUserById users items userId = some u →
      u.revenue = ((items.filter fun it => decide (it.userId = userId)).map
          (fun it => jsOr it.totalRevenue (jsOr it.totalPrice 0))).sum ∧
      u.profit = ((items.filter fun it => decide (it.userId = userId)).map
          (fun it => jsOr it.totalProfit (jsOr it.totalRevenue (jsOr it.totalPrice 0)))).sum) ∧
    (∀ (users : List User) (items : List StockItem),
      getAllUsers users items = users.map fun u0 =>
        { u0 with
          revenue := ((items.filter fun it => decide (it.userId = u0.id)).map
            (fun it => jsOr it.totalRevenue (jsOr it.totalPrice 0))).sum
          profit := ((items.filter fun it => decide (it.userId = u0.id)).map
            (fun it => jsOr it.totalProfit (jsOr it.totalRevenue (jsOr it.totalPrice 0)))).sum }) := by
  refine ⟨?_, ?_, ?_⟩
  · intro items userId tf x hx
    suffices h : ((items ++ [x]).filter fun it => decide (it.userId = userId)).filter
          (fun it => decide (0 < it.sellPrice ∧ 0 < it.buyPrice)) =
        (items.filter fun it => decide (it.userId = userId)).filter
          (fun it => decide (0 < it.sellPrice ∧ 0 < it.buyPrice)) by
      simp only [getUserProfitByYear, h]
    simp only [List.filter_append]
    have hx0 : (([x].filter fun it => decide (it.userId = userId)).filter
        (fun it => decide (0 < it.sellPrice ∧ 0 < it.buyPrice))) = [] := by
      by_cases hxu : x.userId = userId <;> simp [hxu, hx]
    rw [hx0, List.append_nil]
  · intro users items userId u hu
    unfold getUserById at hu
    cases hfind : users.find? (fun v => decide (v.id = userId)) with
    | none => rw [hfind] at hu; exact absurd hu (by simp)
    | some u0 =>
      rw [hfind] at hu
      simp only [Option.some.injEq] at hu
      subst hu
      refine ⟨?_, ?_⟩ <;> simp [userRevenue, userProfit, foldl_add_eq_sum]
  · intro users items
    unfold getAllUsers
    congr 1
    funext u0
    simp [userRevenue, userProfit, foldl_add_eq_sum]

/-- Witness for C3's theorem at concrete inputs. -/
theorem registry_vs_aggregation_witness :
    getUserProfitByYear
        ([] ++ [⟨"ix", "u1", Category.berry, "x", 100, 0, 0, 5, 5/10, 0, 5/10, 5/10,
          none, 2024, none⟩]) "u1" none = getUserProfitByYear [] "u1" none ∧
    ((getUserById [⟨"u1", "alice", 0, 0, 0⟩] [] "u1").map User.revenue) =
      some ((([] : List StockItem).filter fun it => decide (it.userId = "u1")).map
        (fun it => jsOr it.totalRevenue (jsOr it.totalPrice 0))).sum := by
  constructor
  · exact registry_vs_aggregation.1 []
      "u1" none ⟨"ix", "u1", Category.berry, "x", 100, 0, 0, 5, 5/10, 0, 5/10, 5/10,
        none, 2024, none⟩ rfl
  · cases hu : getUserById [⟨"u1", "alice", 0, 0, 0⟩] [] "u1" with
    | none => simp [getUserById, List.find?] at hu
    | some u =>
      have h := (registry_vs_aggregation.2.1 _ _ _ u hu).1
      simp only [Option.map, h]

/-- Counterexample to Claim C3 as stated: a record created with
buyPrice = sellPrice = 5 and quantity 1000 stores totalProfit = 0 and
totalRevenue = 5, so the sum of totalProfit over the user's records is 0,
yet `getUserById` reports profit 5: with totalProfit present but zero, the
code falls back to totalRevenue, contradicting a fallback that happens
only when totalProfit is absent. -/
theorem getUserById_profit_zero_fallback :
    ((getUserById [⟨"u1", "alice", 0, 0, 0⟩]
        (createStockItem [] ⟨"u1", Category.berry, "x", 1000, 5, 5, 5, none, none⟩
          "i1" 2024).2 "u1").map User.profit) ≠
      some ((((createStockItem [] ⟨"u1", Category.berry, "x", 1000, 5, 5, 5, none, none⟩
          "i1" 2024).2.filter fun it => decide (it.userId = "u1")).map
          StockItem.totalProfit).sum) := by
  simp [getUserById, createStockItem, userProfit, userRevenue, jsOr, List.find?]

/-- The triples after an upsert: unchanged when the key was present, else
the key is appended. -/
theorem createPrice_triples (d : PriceData) (freshId : String) (now : Nat) :
    ∀ prices : List Price,
      (createPrice prices d freshId now).2.map tripleOf =
        if (d.type, d.species, d.year) ∈ prices.map tripleOf then
          prices.map tripleOf
        else prices.map tripleOf ++ [(d.type, d.species, d.year)]
  | [] => by simp [createPrice, tripleOf]
  | p :: rest => by
    by_cases hp : p.type = d.type ∧ p.species = d.species ∧ p.year = d.year
    · have ht : tripleOf p = (d.type, d.species, d.year) := by
        simp [tripleOf, hp.1, hp.2.1, hp.2.2]
      have hmem : (d.type, d.species, d.year) ∈ (p :: rest).map tripleOf := by
        rw [List.map_cons, ht]
        exact List.mem_cons_self _ _
      have h2 : (createPrice (p :: rest) d freshId now).2 =
          ({ p with type := d.type, species := d.species, year := d.year
                    buyPrice := d.buyPrice, sellPrice := d.sellPrice
                    updatedAt := now } : Price) :: rest := by
        simp [createPrice, hp]
      rw [h2, if_pos hmem, List.map_cons, List.map_cons, ht]
      simp [tripleOf]
    · have ht : ¬(tripleOf p = (d.type, d.species, d.year)) := by
        simp only [tripleOf, Prod.mk.injEq]
        intro h
        exact hp ⟨h.1, h.2.1, h.2.2⟩
      have h2 : (createPrice (p :: rest) d freshId now).2 =
          p :: (createPrice rest d freshId now).2 := by
        simp [createPrice, hp]
      rw [h2, List.map_cons, createPrice_triples d freshId now rest]
      by_cases hr : (d.type, d.species, d.year) ∈ rest.map tripleOf
      · rw [if_pos hr, if_pos (by
          rw [List.map_cons]
          exact List.mem_cons_of_mem _ hr)]
        rfl
      · rw [if_neg hr, if_neg (by
          rw [List.map_cons, List.mem_cons]
          rintro (h | h)
          · exact ht h.symm
          · exact hr h)]
        rfl

/-- An upsert preserves distinctness of the (type, species, year) triples. -/
theorem createPrice_nodup (d : PriceData) (freshId : String) (now : Nat)
    (prices : List Price) (h : (prices.map tripleOf).Nodup) :
    ((createPrice prices d freshId now).2.map tripleOf).Nodup := by
  rw [createPrice_triples]
  by_cases hmem : (d.type, d.species, d.year) ∈ prices.map tripleOf
  · rw [if_pos hmem]
    exact h
  · rw [if_neg hmem]
    refine List.Nodup.append h (List.nodup_singleton _) ?_
    intro x hx hx'
    simp only [List.mem_singleton] at hx'
    exact hmem (hx' ▸ hx)

/-- An update-by-id never changes any entry's triple. -/
theorem updatePrice_triples (i : String) (u : PriceUpdate) (now : Nat) :
    ∀ prices : List Price,
      (updatePrice prices i u now).2.map tripleOf = prices.map tripleOf
  | [] => rfl
  | p :: rest => by
    by_cases h : p.id = i <;>
      simp [updatePrice, h, tripleOf, updatePrice_triples i u now rest]

/-- A delete only removes entries. -/
theorem deletePrice_sublist (i : String) :
    ∀ prices : List Price, (deletePrice prices i).2.Sublist prices
  | [] => by simp [deletePrice]
  | p :: rest => by
    by_cases h : p.id = i
    · simpa [deletePrice, h] using List.sublist_cons p rest
    · simpa [deletePrice, h] using List.Sublist.cons₂ p (deletePrice_sublist i rest)

/-- Any state reached from the empty table has pairwise-distinct triples. -/
theorem priceOps_nodup_aux : ∀ (ops : List PriceOp) (prices : List Price),
    (prices.map tripleOf).Nodup → ((ops.foldl applyPriceOp prices).map tripleOf).Nodup
  | [], _, h => h
  | op :: ops, prices, h => by
    rw [List.foldl_cons]
    apply priceOps_nodup_aux ops
    cases op with
    | upsert d freshId now => exact createPrice_nodup d freshId now prices h
    | update i u now =>
      show ((updatePrice prices i u now).2.map tripleOf).Nodup
      rw [updatePrice_triples]
      exact h
    | del i =>
      exact h.sublist ((deletePrice_sublist i prices).map tripleOf)

/-- The in-place overwrite `{ ...prices[i], ...priceData, updatedAt: new Date() }`. -/
def overwrittenPrice (p₀ : Price) (d : PriceData) (now : Nat) : Price :=
  { p₀ with type := d.type, species := d.species, year := d.year
            buyPrice := d.buyPrice, sellPrice := d.sellPrice, updatedAt := now }

/-- An upsert whose key is already present overwrites the first entry with
that key, in place. -/
theorem createPrice_overwrite (d : PriceData) (freshId : String) (now : Nat) :
    ∀ (l₁ : List Price) (p₀ : Price) (l₂ : List Price),
      (∀ q ∈ l₁, tripleOf q ≠ (d.type, d.species, d.year)) →
      tripleOf p₀ = (d.type, d.species, d.year) →
      createPrice (l₁ ++ p₀ :: l₂) d freshId now =
        (overwrittenPrice p₀ d now, l₁ ++ overwrittenPrice p₀ d now :: l₂)
  | [], p₀, l₂, _, h => by
    have hc : p₀.type = d.type ∧ p₀.species = d.species ∧ p₀.year = d.year := by
      simp only [tripleOf, Prod.mk.injEq] at h
      exact ⟨h.1, h.2.1, h.2.2⟩
    simp [createPrice, hc, overwrittenPrice]
  | q :: l₁, p₀, l₂, hn, h => by
    have hq : tripleOf q ≠ (d.type, d.species, d.year) := hn q (List.mem_cons_self q l₁)
    have hqc : ¬(q.type = d.type ∧ q.species = d.species ∧ q.year = d.year) := by
      intro hc
      exact hq (by simp [tripleOf, hc.1, hc.2.1, hc.2.2])
    have ih := createPrice_overwrite d freshId now l₁ p₀ l₂
      (fun z hz => hn z (List.mem_cons_of_mem _ hz)) h
    simp [createPrice, hqc, ih]

/-- Claim C5: every state reachable by upserts, updates-by-id and deletes
from the empty price table has at most one entry per (category, species,
year) triple; an upsert on an existing triple overwrites that (first)
entry's prices and timestamp in place, preserving its id and the table's
length, and never adds a second entry for the triple. -/
theorem price_triple_unique :
    (∀ ops : List PriceOp, ((runPriceOps ops).map tripleOf).Nodup) ∧
    (∀ (l₁ : List Price) (p₀ : Price) (l₂ : List Price) (d : PriceData)
        (freshId : String) (now : Nat),
      (∀ q ∈ l₁, tripleOf q ≠ (d.type, d.species, d.year)) →
      tripleOf p₀ = (d.type, d.species, d.year) →
      (createPrice (l₁ ++ p₀ :: l₂) d freshId now).1.id = p₀.id ∧
      (createPrice (l₁ ++ p₀ :: l₂) d freshId now).1.buyPrice = d.buyPrice ∧
      (createPrice (l₁ ++ p₀ :: l₂) d freshId now).1.sellPrice = d.sellPrice ∧
      (createPrice (l₁ ++ p₀ :: l₂) d freshId now).1.updatedAt = now ∧
      tripleOf (createPrice (l₁ ++ p₀ :: l₂) d freshId now).1 = tripleOf p₀ ∧
      (createPrice (l₁ ++ p₀ :: l₂) d freshId now).2 =
        l₁ ++ (createPrice (l₁ ++ p₀ :: l₂) d freshId now).1 :: l₂ ∧
      (createPrice (l₁ ++ p₀ :: l₂) d freshId now).2.length =
        (l₁ ++ p₀ :: l₂).length) := by
  constructor
  · intro ops
    exact priceOps_nodup_aux ops [] (by simp)
  · intro l₁ p₀ l₂ d freshId now hn h
    rw [createPrice_overwrite d freshId now l₁ p₀ l₂ hn h]
    have ht : tripleOf (overwrittenPrice p₀ d now) = tripleOf p₀ := by
      simp only [tripleOf, overwrittenPrice, Prod.mk.injEq] at h ⊢
      exact ⟨h.1.symm, h.2.1.symm, h.2.2.symm⟩
    exact ⟨by simp [overwrittenPrice], by simp [overwrittenPrice],
      by simp [overwrittenPrice], by simp [overwrittenPrice], ht, rfl,
      by simp [List.length_append]⟩

/-- Witness for C5's theorem at a concrete input. -/
theorem price_triple_unique_witness :
    (createPrice [⟨"a", Category.berry, "x", 2024, 1, 2, 0⟩]
        ⟨Category.berry, "x", 2024, 3, 4⟩ "b" 7).1.id = "a" ∧
    (createPrice [⟨"a", Category.berry, "x", 2024, 1, 2, 0⟩]
        ⟨Category.berry, "x", 2024, 3, 4⟩ "b" 7).1.buyPrice = 3 ∧
    (createPrice [⟨"a", Category.berry, "x", 2024, 1, 2, 0⟩]
        ⟨Category.berry, "x", 2024, 3, 4⟩ "b" 7).2.length = 1 ∧
    ((runPriceOps [PriceOp.upsert ⟨Category.berry, "x", 2024, 1, 2⟩ "a" 0,
        PriceOp.upsert ⟨Category.berry, "x", 2024, 3, 4⟩ "b" 7]).map tripleOf).Nodup := by
  have h := price_triple_unique.2 [] ⟨"a", Category.berry, "x", 2024, 1, 2, 0⟩ []
    ⟨Category.berry, "x", 2024, 3, 4⟩ "b" 7 (by intro q hq; simp at hq) rfl
  refine ⟨h.1, h.2.1, ?_, ?_⟩
  · have h7 := h.2.2.2.2.2.2
    simpa using h7
  · exact price_triple_unique.1 [PriceOp.upsert ⟨Category.berry, "x", 2024, 1, 2⟩ "a" 0,
      PriceOp.upsert ⟨Category.berry, "x", 2024, 3, 4⟩ "b" 7]

/-- Membership through year-descending insertion. -/
theorem insertYearDesc_mem (p x : Price) :
    ∀ l : List Price, x ∈ insertYearDesc p l ↔ x = p ∨ x ∈ l
  | [] => by simp [insertYearDesc]
  | q :: rest => by
    by_cases h : q.year ≤ p.year
    · simp [insertYearDesc, h]
    · simp only [insertYearDesc, h, if_false, List.mem_cons,
        insertYearDesc_mem p x rest]
      tauto

/-- The head of the year-descending sort is a member of maximal year, and
the sort is empty only for the empty list. -/
theorem sortYearDesc_spec : ∀ l : List Price,
    (sortYearDesc l = [] → l = []) ∧
    (∀ (h : Price) (rest : List Price), sortYearDesc l = h :: rest →
      h ∈ l ∧ ∀ x ∈ l, x.year ≤ h.year)
  | [] => by simp [sortYearDesc]
  | p :: l => by
    have hfold : sortYearDesc (p :: l) = insertYearDesc p (sortYearDesc l) := rfl
    have ih := sortYearDesc_spec l
    cases hsl : sortYearDesc l with
    | nil =>
      have hl : l = [] := ih.1 hsl
      subst hl
      refine ⟨by simp [sortYearDesc, insertYearDesc], ?_⟩
      intro h rest hh
      simp only [sortYearDesc, List.foldr_cons, List.foldr_nil, insertYearDesc,
        List.cons.injEq] at hh
      obtain ⟨rfl, -⟩ := hh
      exact ⟨List.mem_singleton_self p, by intro x hx; simp at hx; simp [hx]⟩
    | cons q rest' =>
      have hq := ih.2 q rest' hsl
      rw [hfold, hsl]
      by_cases hqp : q.year ≤ p.year
      · refine ⟨by simp [insertYearDesc, hqp], ?_⟩
        intro h rest hh
        simp only [insertYearDesc, hqp, if_true, List.cons.injEq] at hh
        obtain ⟨rfl, -⟩ := hh
        refine ⟨List.mem_cons_self p l, ?_⟩
        intro x hx
        rcases List.mem_cons.1 hx with rfl | hxl
        · exact le_refl _
        · exact le_trans (hq.2 x hxl) hqp
      · refine ⟨by simp [insertYearDesc, hqp], ?_⟩
        intro h rest hh
        simp only [insertYearDesc, hqp, if_false, List.cons.injEq] at hh
        obtain ⟨rfl, -⟩ := hh
        refine ⟨List.mem_cons_of_mem p hq.1, ?_⟩
        intro x hx
        rcases List.mem_cons.1 hx with rfl | hxl
        · exact le_of_lt (lt_of_not_le hqp)
        · exact hq.2 x hxl

/-- Claim C6: `getCurrentPrice` returns an entry of the current calendar
year for the pair when one exists; otherwise it returns a matching entry
of maximal year; and it returns `none` exactly when no entry matches the
(category, species) pair. -/
theorem getCurrentPrice_spec (prices : List Price) (currentYear : Nat)
    (t : Category) (species : String) :
    ((∃ p ∈ prices, p.type = t ∧ p.species = species ∧ p.year = currentYear) →
      ∃ p, getCurrentPrice prices currentYear t species = some p ∧
        p ∈ prices ∧ p.type = t ∧ p.species = species ∧ p.year = currentYear) ∧
    ((¬∃ p ∈ prices, p.type = t ∧ p.species = species ∧ p.year = currentYear) →
      (∃ p ∈ prices, p.type = t ∧ p.species = species) →
      ∃ p, getCurrentPrice prices currentYear t species = some p ∧
        p ∈ prices ∧ p.type = t ∧ p.species = species ∧
        ∀ q ∈ prices, q.type = t → q.species = species → q.year ≤ p.year) ∧
    (getCurrentPrice prices currentYear t species = none ↔
      ¬∃ p ∈ prices, p.type = t ∧ p.species = species) := by
  cases hf : prices.find? (fun p =>
      decide (p.type = t ∧ p.species = species ∧ p.year = currentYear)) with
  | some p =>
    have hmem : p ∈ prices := List.mem_of_find?_eq_some hf
    have hp : p.type = t ∧ p.species = species ∧ p.year = currentYear := by
      have := List.find?_some hf
      simpa using this
    have hres : getCurrentPrice prices currentYear t species = some p := by
      unfold getCurrentPrice
      rw [hf]
    refine ⟨fun _ => ⟨p, hres, hmem, hp⟩, ?_, ?_⟩
    · intro habs
      exact absurd ⟨p, hmem, hp⟩ habs
    · rw [hres]
      refine ⟨fun hcontra => absurd hcontra (by simp),
        fun hno => absurd ⟨p, hmem, hp.1, hp.2.1⟩ hno⟩
  | none =>
    have hnone : ∀ x ∈ prices,
        ¬(x.type = t ∧ x.species = species ∧ x.year = currentYear) := by
      intro x hx
      have := List.find?_eq_none.1 hf x hx
      simpa using this
    have hres : getCurrentPrice prices currentYear t species =
        (sortYearDesc (prices.filter fun p =>
          decide (p.type = t ∧ p.species = species))).head? := by
      unfold getCurrentPrice
      rw [hf]
    refine ⟨?_, ?_, ?_⟩
    · intro hex
      obtain ⟨p, hmem, hp⟩ := hex
      exact absurd hp (hnone p hmem)
    · intro _ hex
      obtain ⟨p, hmem, hp⟩ := hex
      have hpfil : p ∈ prices.filter (fun p => decide (p.type = t ∧ p.species = species)) := by
        rw [List.mem_filter]
        exact ⟨hmem, by simp [hp.1, hp.2]⟩
      cases hsort : sortYearDesc (prices.filter fun p =>
          decide (p.type = t ∧ p.species = species)) with
      | nil =>
        exfalso
        have := (sortYearDesc_spec _).1 hsort
        rw [this] at hpfil
        simp at hpfil
      | cons h0 rest =>
        have hh := (sortYearDesc_spec _).2 h0 rest hsort
        have hh0 : h0 ∈ prices ∧ (h0.type = t ∧ h0.species = species) := by
          have := List.mem_filter.1 hh.1
          exact ⟨this.1, by simpa using this.2⟩
        refine ⟨h0, by rw [hres, hsort]; rfl, hh0.1, hh0.2.1, hh0.2.2, ?_⟩
        intro q hq hqt hqs
        apply hh.2
        rw [List.mem_filter]
        exact ⟨hq, by simp [hqt, hqs]⟩
    · rw [hres]
      cases hsort : sortYearDesc (prices.filter fun p =>
          decide (p.type = t ∧ p.species = species)) with
      | nil =>
        simp only [List.head?_nil, true_iff]
        have hfil := (sortYearDesc_spec _).1 hsort
        intro hex
        obtain ⟨p, hmem, hp⟩ := hex
        have : p ∈ prices.filter (fun p => decide (p.type = t ∧ p.species = species)) := by
          rw [List.mem_filter]
          exact ⟨hmem, by simp [hp.1, hp.2]⟩
        rw [hfil] at this
        simp at this
      | cons h0 rest =>
        have hh := (sortYearDesc_spec _).2 h0 rest hsort
        have hmf := List.mem_filter.1 hh.1
        refine ⟨fun hcontra => absurd hcontra (by simp), fun hno => ?_⟩
        exact absurd ⟨h0, hmf.1, by simpa using hmf.2⟩ hno

/-- Witness for C6's theorem at a concrete input. -/
theorem getCurrentPrice_spec_witness :
    (∃ p, getCurrentPrice [⟨"a", Category.berry, "x", 2023, 1, 2, 0⟩,
        ⟨"b", Category.berry, "x", 2021, 1, 2, 0⟩] 2024 Category.berry "x" = some p ∧
      p ∈ [⟨"a", Category.berry, "x", 2023, 1, 2, 0⟩,
        ⟨"b", Category.berry, "x", 2021, 1, 2, 0⟩] ∧
      p.type = Category.berry ∧ p.species = "x" ∧
      ∀ q ∈ [(⟨"a", Category.berry, "x", 2023, 1, 2, 0⟩ : Price),
        ⟨"b", Category.berry, "x", 2021, 1, 2, 0⟩],
        q.type = Category.berry → q.species = "x" → q.year ≤ p.year) ∧
    (getCurrentPrice [⟨"a", Category.berry, "x", 2023, 1, 2, 0⟩] 2024
        Category.mushroom "x" = none) := by
  constructor
  · exact (getCurrentPrice_spec [⟨"a", Category.berry, "x", 2023, 1, 2, 0⟩,
      ⟨"b", Category.berry, "x", 2021, 1, 2, 0⟩] 2024 Category.berry "x").2.1
      (by rintro ⟨p, hp, -, -, hy⟩; simp at hp; rcases hp with rfl | rfl <;> simp_all)
      ⟨⟨"a", Category.berry, "x", 2023, 1, 2, 0⟩, by simp, rfl, rfl⟩
  · exact (getCurrentPrice_spec [⟨"a", Category.berry, "x", 2023, 1, 2, 0⟩] 2024
      Category.mushroom "x").2.2.2
      (by rintro ⟨p, hp, ht, -⟩; simp at hp; subst hp; simp at ht)

/-- Component-wise effect of folding `priceAdd` over a list of entries. -/
theorem priceAdd_foldl : ∀ (l : List Price) (e : YearEntry),
    (l.foldl priceAdd e).year = e.year ∧
    (l.foldl priceAdd e).revenue = e.revenue + (l.map Price.sellPrice).sum ∧
    (l.foldl priceAdd e).cost = e.cost + (l.map Price.buyPrice).sum ∧
    (l.foldl priceAdd e).profit
      = e.profit + (l.map fun p => p.sellPrice - p.buyPrice).sum ∧
    (l.foldl priceAdd e).itemCount = e.itemCount + l.length
  | [], e => by simp
  | p :: l, e => by
    have ih := priceAdd_foldl l (priceAdd e p)
    simp only [List.foldl_cons, List.map_cons, List.sum_cons, List.length_cons]
    refine ⟨?_, ?_, ?_, ?_, ?_⟩
    · rw [ih.1]
      rfl
    · rw [ih.2.1]
      show e.revenue + p.sellPrice + _ = _
      ring
    · rw [ih.2.2.1]
      show e.cost + p.buyPrice + _ = _
      ring
    · rw [ih.2.2.2.1]
      show e.profit + (p.sellPrice - p.buyPrice) + _ = _
      ring
    · rw [ih.2.2.2.2]
      show e.itemCount + 1 + _ = _
      omega

/-- Claim C7: `getPriceProfitAnalysis` depends only on the price table —
two stores with identical price tables produce identical output whatever
their ledgers — and per year it accumulates, over the matching price
entries, revenue += sellPrice, cost += buyPrice, profit += (sellPrice −
buyPrice) and itemCount += 1. -/
theorem getPriceProfitAnalysis_spec :
    (∀ (s1 s2 : DataStore) (tf : Option Category), s1.prices = s2.prices →
      getPriceProfitAnalysis s1 tf = getPriceProfitAnalysis s2 tf) ∧
    (∀ (s : DataStore) (tf : Option Category) (y : Nat),
      ((typeFilteredPrices s.prices tf).filter (fun p => decide (p.year = y)) = [] →
        lookupG (fun e : YearEntry => e.year) y (getPriceProfitAnalysis s tf) = none) ∧
      (∀ (p0 : Price) (rest : List Price),
        (typeFilteredPrices s.prices tf).filter (fun p => decide (p.year = y))
            = p0 :: rest →
        lookupG (fun e : YearEntry => e.year) y (getPriceProfitAnalysis s tf) =
          some ⟨y, ((p0 :: rest).map Price.sellPrice).sum,
            ((p0 :: rest).map Price.buyPrice).sum,
            ((p0 :: rest).map fun p => p.sellPrice - p.buyPrice).sum,
            (p0 :: rest).length⟩)) := by
  constructor
  · intro s1 s2 tf h
    unfold getPriceProfitAnalysis
    rw [h]
  · intro s tf y
    have hmain := lookupG_foldl (fun p : Price => p.year)
      (fun e : YearEntry => e.year)
      (fun p => (⟨p.year, 0, 0, 0, 0⟩ : YearEntry)) priceAdd
      (fun _ => rfl) (fun _ _ => rfl) y (typeFilteredPrices s.prices tf) []
    constructor
    · intro hfil
      rw [hfil] at hmain
      simpa [getPriceProfitAnalysis, groupG, lookupG] using hmain
    · intro p0 rest hfil
      rw [hfil] at hmain
      simp only [lookupG] at hmain
      have hy : p0.year = y := by
        have hp0 : p0 ∈ (typeFilteredPrices s.prices tf).filter
            (fun p => decide (p.year = y)) := by
          rw [hfil]
          exact List.mem_cons_self _ _
        have := List.mem_filter.1 hp0
        simpa using this.2
      have hcomp := priceAdd_foldl (p0 :: rest) ⟨p0.year, 0, 0, 0, 0⟩
      obtain ⟨h1, h2, h3, h4, h5⟩ := hcomp
      have hE : List.foldl priceAdd (⟨p0.year, 0, 0, 0, 0⟩ : YearEntry) (p0 :: rest) =
          (⟨y, ((p0 :: rest).map Price.sellPrice).sum,
            ((p0 :: rest).map Price.buyPrice).sum,
            ((p0 :: rest).map fun p => p.sellPrice - p.buyPrice).sum,
            (p0 :: rest).length⟩ : YearEntry) := by
        rcases hEe : List.foldl priceAdd (⟨p0.year, 0, 0, 0, 0⟩ : YearEntry) (p0 :: rest)
          with ⟨ey, er, ec, ep, en⟩
        rw [hEe] at h1 h2 h3 h4 h5
        simp only [] at h1 h2 h3 h4 h5
        simp [h1, h2, h3, h4, h5, hy]
      rw [hE] at hmain
      exact hmain

/-- Witness for C7's theorem: two stores sharing the price table with
different ledgers give the same analysis, and the spec's berry/mushroom
2024 scenario yields revenue 9, cost 3, profit 6, itemCount 2. -/
theorem getPriceProfitAnalysis_spec_witness :
    getPriceProfitAnalysis
        ⟨[], [], [⟨"p1", Category.berry, "b", 2024, 2, 5, 0⟩,
          ⟨"p2", Category.mushroom, "m", 2024, 1, 4, 0⟩]⟩ none =
      getPriceProfitAnalysis
        ⟨[⟨"u1", "alice", 0, 0, 0⟩],
          [⟨"i1", "u1", Category.berry, "x", 1000, 5, 2, 5, 5, 2, 3, 5, none, 2024, none⟩],
          [⟨"p1", Category.berry, "b", 2024, 2, 5, 0⟩,
           ⟨"p2", Category.mushroom, "m", 2024, 1, 4, 0⟩]⟩ none ∧
    lookupG (fun e : YearEntry => e.year) 2024
        (getPriceProfitAnalysis
          ⟨[], [], [⟨"p1", Category.berry, "b", 2024, 2, 5, 0⟩,
            ⟨"p2", Category.mushroom, "m", 2024, 1, 4, 0⟩]⟩ none) =
      some ⟨2024, 9, 3, 6, 2⟩ := by
  constructor
  · exact getPriceProfitAnalysis_spec.1
      ⟨[], [], [⟨"p1", Category.berry, "b", 2024, 2, 5, 0⟩,
        ⟨"p2", Category.mushroom, "m", 2024, 1, 4, 0⟩]⟩
      ⟨[⟨"u1", "alice", 0, 0, 0⟩],
        [⟨"i1", "u1", Category.berry, "x", 1000, 5, 2, 5, 5, 2, 3, 5, none, 2024, none⟩],
        [⟨"p1", Category.berry, "b", 2024, 2, 5, 0⟩,
         ⟨"p2", Category.mushroom, "m", 2024, 1, 4, 0⟩]⟩ none rfl
  · have h := ((getPriceProfitAnalysis_spec.2
      ⟨[], [], [⟨"p1", Category.berry, "b", 2024, 2, 5, 0⟩,
        ⟨"p2", Category.mushroom, "m", 2024, 1, 4, 0⟩]⟩ none 2024).2
      ⟨"p1", Category.berry, "b", 2024, 2, 5, 0⟩
      [⟨"p2", Category.mushroom, "m", 2024, 1, 4, 0⟩] (by rfl))
    rw [h]
    simp
    norm_num

/-- `invAdd` never changes the (type, species) key of an accumulator. -/
theorem invAdd_keyB (b : InvAcc) (a : StockItem) :
    ((invAdd b a).type, (invAdd b a).species) = (b.type, b.species) := by
  unfold invAdd
  split
  · rfl
  · split <;> rfl

/-- Component-wise effect of folding `invAdd`: purchases accumulate the
quantities of `buyPrice > 0 && sellPrice == 0` records, sales those of
`sellPrice > 0` records. -/
theorem invAdd_foldl : ∀ (l : List StockItem) (e : InvAcc),
    (l.foldl invAdd e).type = e.type ∧
    (l.foldl invAdd e).species = e.species ∧
    (l.foldl invAdd e).totalPurchased = e.totalPurchased +
      ((l.filter fun it => decide (0 < it.buyPrice ∧ it.sellPrice = 0)).map
        StockItem.quantity).sum ∧
    (l.foldl invAdd e).totalSold = e.totalSold +
      ((l.filter fun it => decide (0 < it.sellPrice)).map StockItem.quantity).sum
  | [], e => by simp
  | a :: l, e => by
    have ih := invAdd_foldl l (invAdd e a)
    simp only [List.foldl_cons]
    by_cases hp : 0 < a.buyPrice ∧ a.sellPrice = 0
    · have hs : ¬(0 < a.sellPrice) := by rw [hp.2]; exact lt_irrefl 0
      have hstep : invAdd e a =
          { e with totalPurchased := e.totalPurchased + a.quantity } := by
        simp [invAdd, hp]
      rw [hstep] at ih
      rw [hstep]
      have hfp : (a :: l).filter (fun it => decide (0 < it.buyPrice ∧ it.sellPrice = 0)) =
          a :: l.filter (fun it => decide (0 < it.buyPrice ∧ it.sellPrice = 0)) :=
        List.filter_cons_of_pos (by simpa using hp)
      have hfs : (a :: l).filter (fun it => decide (0 < it.sellPrice)) =
          l.filter (fun it => decide (0 < it.sellPrice)) :=
        List.filter_cons_of_neg (by simpa using hs)
      rw [hfp, hfs, List.map_cons, List.sum_cons]
      refine ⟨by rw [ih.1], by rw [ih.2.1], ?_, by rw [ih.2.2.2]⟩
      rw [ih.2.2.1]
      show e.totalPurchased + a.quantity + _ = _
      ring
    · by_cases hs : 0 < a.sellPrice
      · have hstep : invAdd e a =
            { e with totalSold := e.totalSold + a.quantity } := by
          simp [invAdd, hp, hs]
        rw [hstep] at ih
        rw [hstep]
        have hfp : (a :: l).filter (fun it => decide (0 < it.buyPrice ∧ it.sellPrice = 0)) =
            l.filter (fun it => decide (0 < it.buyPrice ∧ it.sellPrice = 0)) :=
          List.filter_cons_of_neg (by simpa using hp)
        have hfs : (a :: l).filter (fun it => decide (0 < it.sellPrice)) =
            a :: l.filter (fun it => decide (0 < it.sellPrice)) :=
          List.filter_cons_of_pos (by simpa using hs)
        rw [hfp, hfs, List.map_cons, List.sum_cons]
        refine ⟨by rw [ih.1], by rw [ih.2.1], by rw [ih.2.2.1], ?_⟩
        rw [ih.2.2.2]
        show e.totalSold + a.quantity + _ = _
        ring
      · have hstep : invAdd e a = e := by
          simp [invAdd, hp, hs]
        rw [hstep] at ih
        rw [hstep]
        have hfp : (a :: l).filter (fun it => decide (0 < it.buyPrice ∧ it.sellPrice = 0)) =
            l.filter (fun it => decide (0 < it.buyPrice ∧ it.sellPrice = 0)) :=
          List.filter_cons_of_neg (by simpa using hp)
        have hfs : (a :: l).filter (fun it => decide (0 < it.sellPrice)) =
            l.filter (fun it => decide (0 < it.sellPrice)) :=
          List.filter_cons_of_neg (by simpa using hs)
        rw [hfp, hfs]
        exact ih

/-- Claim C4: every reported inventory entry of `getAvailableInventory`
carries totalPurchased = the summed quantity of the group's records with
buyPrice > 0 and sellPrice = 0, totalSold = the summed quantity of the
group's records with sellPrice > 0 (regardless of buyPrice), and
availableQuantity = totalPurchased − totalSold, unclamped; and every
relevant record's (category, species) group is reported. -/
theorem getAvailableInventory_netting (items : List StockItem) (userId : String)
    (tf : Option Category) (sf : Option String) :
    (∀ e ∈ getAvailableInventory items userId tf sf,
      e.totalPurchased = (((relevantStockItems items userId tf sf).filter fun it =>
          decide (it.type = e.type ∧ it.species = e.species ∧
            0 < it.buyPrice ∧ it.sellPrice = 0)).map StockItem.quantity).sum ∧
      e.totalSold = (((relevantStockItems items userId tf sf).filter fun it =>
          decide (it.type = e.type ∧ it.species = e.species ∧ 0 < it.sellPrice)).map
          StockItem.quantity).sum ∧
      e.availableQuantity = e.totalPurchased - e.totalSold) ∧
    (∀ it ∈ relevantStockItems items userId tf sf,
      ∃ e ∈ getAvailableInventory items userId tf sf,
        e.type = it.type ∧ e.species = it.species) := by
  have hnodup := nodup_keys_foldl (fun it : StockItem => (it.type, it.species))
    (fun b : InvAcc => (b.type, b.species)) (fun it => ⟨it.type, it.species, 0, 0⟩)
    invAdd (fun _ => rfl) invAdd_keyB (relevantStockItems items userId tf sf) []
    (by simp)
  constructor
  · intro e he
    unfold getAvailableInventory at he
    obtain ⟨b, hb, hbe⟩ := List.mem_map.1 he
    have hlook := lookupG_of_mem (fun b : InvAcc => (b.type, b.species)) _ hnodup b hb
    have hmain := lookupG_foldl (fun it : StockItem => (it.type, it.species))
      (fun b : InvAcc => (b.type, b.species)) (fun it => ⟨it.type, it.species, 0, 0⟩)
      invAdd (fun _ => rfl) invAdd_keyB (b.type, b.species)
      (relevantStockItems items userId tf sf) []
    have hlook2 : lookupG (fun b : InvAcc => (b.type, b.species)) (b.type, b.species)
        ((relevantStockItems items userId tf sf).foldl
          (stepG (fun it : StockItem => (it.type, it.species))
            (fun b : InvAcc => (b.type, b.species))
            (fun it => ⟨it.type, it.species, 0, 0⟩) invAdd) []) = some b := hlook
    rw [hlook2] at hmain
    simp only [lookupG] at hmain
    cases hfil : (relevantStockItems items userId tf sf).filter
        (fun a => decide ((a.type, a.species) = (b.type, b.species))) with
    | nil =>
      rw [hfil] at hmain
      exact absurd hmain (by simp)
    | cons a0 rest =>
      rw [hfil] at hmain
      have hbfold : b = List.foldl invAdd (⟨a0.type, a0.species, 0, 0⟩ : InvAcc)
          (a0 :: rest) := by
        have := hmain
        simpa using this
      have hcomp := invAdd_foldl (a0 :: rest) ⟨a0.type, a0.species, 0, 0⟩
      rw [← hbfold] at hcomp
      have hkey : (a0.type, a0.species) = (b.type, b.species) := by
        have ha0 : a0 ∈ (relevantStockItems items userId tf sf).filter
            (fun a => decide ((a.type, a.species) = (b.type, b.species))) := by
          rw [hfil]
          exact List.mem_cons_self _ _
        have := List.mem_filter.1 ha0
        simpa using this.2
      have hePurch : e.totalPurchased = b.totalPurchased := by rw [← hbe]
      have heSold : e.totalSold = b.totalSold := by rw [← hbe]
      have heType : e.type = b.type := by rw [← hbe]
      have heSpecies : e.species = b.species := by rw [← hbe]
      have heAvail : e.availableQuantity = b.totalPurchased - b.totalSold := by
        rw [← hbe]
      have hq : ∀ (extra : StockItem → Prop) [DecidablePred extra],
          ((a0 :: rest).filter fun it => decide (extra it)) =
          ((relevantStockItems items userId tf sf).filter fun it =>
            decide (it.type = e.type ∧ it.species = e.species ∧ extra it)) := by
        intro extra hdec
        rw [← hfil, List.filter_filter]
        refine List.filter_congr ?_
        intro a ha
        rw [heType, heSpecies]
        simp [Prod.ext_iff, Bool.and_comm, Bool.and_left_comm, Bool.and_assoc]
      refine ⟨?_, ?_, ?_⟩
      · rw [hePurch, hcomp.2.2.1,
          hq (fun it => 0 < it.buyPrice ∧ it.sellPrice = 0)]
        simp
      · rw [heSold, hcomp.2.2.2, hq (fun it => 0 < it.sellPrice)]
        simp
      · rw [heAvail, hePurch, heSold]
  · intro it hit
    have hmain := lookupG_foldl (fun it : StockItem => (it.type, it.species))
      (fun b : InvAcc => (b.type, b.species)) (fun it => ⟨it.type, it.species, 0, 0⟩)
      invAdd (fun _ => rfl) invAdd_keyB (it.type, it.species)
      (relevantStockItems items userId tf sf) []
    simp only [lookupG] at hmain
    cases hfil : (relevantStockItems items userId tf sf).filter
        (fun a => decide ((a.type, a.species) = (it.type, it.species))) with
    | nil =>
      exfalso
      have : it ∈ (relevantStockItems items userId tf sf).filter
          (fun a => decide ((a.type, a.species) = (it.type, it.species))) := by
        rw [List.mem_filter]
        exact ⟨hit, by simp⟩
      rw [hfil] at this
      simp at this
    | cons a0 rest =>
      rw [hfil] at hmain
      have hmem := lookupG_mem (fun b : InvAcc => (b.type, b.species))
        (it.type, it.species) _ _ hmain
      refine ⟨⟨(List.foldl invAdd (⟨a0.type, a0.species, 0, 0⟩ : InvAcc)
          (a0 :: rest)).type,
        (List.foldl invAdd (⟨a0.type, a0.species, 0, 0⟩ : InvAcc) (a0 :: rest)).species,
        (List.foldl invAdd (⟨a0.type, a0.species, 0, 0⟩ : InvAcc)
            (a0 :: rest)).totalPurchased -
          (List.foldl invAdd (⟨a0.type, a0.species, 0, 0⟩ : InvAcc) (a0 :: rest)).totalSold,
        (List.foldl invAdd (⟨a0.type, a0.species, 0, 0⟩ : InvAcc) (a0 :: rest)).totalPurchased,
        (List.foldl invAdd (⟨a0.type, a0.species, 0, 0⟩ : InvAcc) (a0 :: rest)).totalSold⟩,
        ?_, ?_, ?_⟩
      · unfold getAvailableInventory
        exact List.mem_map_of_mem _ hmem.1
      · have h2 := hmem.2
        simp only [Prod.mk.injEq] at h2
        exact h2.1
      · have h2 := hmem.2
        simp only [Prod.mk.injEq] at h2
        exact h2.2

/-- Witness for C4's theorem on the spec's end-to-end scenario: a 500 g
blueberry purchase and a 200 g blueberry sale net to 300 g available. -/
theorem getAvailableInventory_netting_witness :
    (∃ e ∈ getAvailableInventory
        [⟨"i1", "u1", Category.berry, "blueberry", 500, 0, 3, 0, 0, 2, -2, 0,
          none, 2024, none⟩,
         ⟨"i2", "u1", Category.berry, "blueberry", 200, 6, 3, 6, 1, 1, 0, 1,
          none, 2024, none⟩] "u1" none none,
      e.type = Category.berry ∧ e.species = "blueberry") ∧
    (⟨Category.berry, "blueberry", 300, 500, 200⟩ : InvEntry).availableQuantity =
      (⟨Category.berry, "blueberry", 300, 500, 200⟩ : InvEntry).totalPurchased -
      (⟨Category.berry, "blueberry", 300, 500, 200⟩ : InvEntry).totalSold := by
  constructor
  · exact (getAvailableInventory_netting
      [⟨"i1", "u1", Category.berry, "blueberry", 500, 0, 3, 0, 0, 2, -2, 0,
        none, 2024, none⟩,
       ⟨"i2", "u1", Category.berry, "blueberry", 200, 6, 3, 6, 1, 1, 0, 1,
        none, 2024, none⟩] "u1" none none).2
      ⟨"i1", "u1", Category.berry, "blueberry", 500, 0, 3, 0, 0, 2, -2, 0,
        none, 2024, none⟩
      (by simp [relevantStockItems])
  · have h := (getAvailableInventory_netting
      [⟨"i1", "u1", Category.berry, "blueberry", 500, 0, 3, 0, 0, 2, -2, 0,
        none, 2024, none⟩,
       ⟨"i2", "u1", Category.berry, "blueberry", 200, 6, 3, 6, 1, 1, 0, 1,
        none, 2024, none⟩] "u1" none none).1
      ⟨Category.berry, "blueberry", 300, 500, 200⟩
    exact (h (by
      norm_num [getAvailableInventory, relevantStockItems, groupG, stepG, lookupG,
        updG, invAdd])).2.2

end NatureFood
